import Mathlib

/-!
Shallow embedding of `src/download_laws.py` (Moroccan Justice Portal PDF
downloader) and verification of its specification claims.

Modelling conventions:
- Python strings are embedded as `List Char`.
- The filesystem is the set of existing regular files, a `List` of paths,
  where a path is the list of its segments (`FPath`).  Directory creation
  (`mkdir`) has no effect on file existence and is tracked only where a claim
  needs it (top-level directories created by `main`, see `process_root`).
- Network nondeterminism is made explicit: a fetch/download attempt's outcome
  is a value (`FetchAttempt`, `DlAttempt`), and the per-file download outcome
  seen by the tree walker is a function `net : List Char → Bool` from the
  remote path to success.  "Identical remote data" means the same tree and the
  same `net`.
- The remote hierarchy is the inductive tree `FolderNode`; a node is `failed`
  when `get_folder_data` for its id returns `None` (exhausted retries), and
  `ok name files folders` when it returns a JSON object with those optional
  fields.  `requests` raises `JSONDecodeError` (a `RequestException`
  subclass) for malformed bodies, so malformed responses behave like network
  errors in the retry loop (`FetchAttempt.malformed`).
- The side effects of the retry loops (`time.sleep`, attempt starts) are
  returned as explicit event traces (`Ev`).
-/

/-- Configuration constant `MAX_RETRIES = 3` from the source. -/
def MAX_RETRIES : Nat := 3

/-- Configuration constant `RETRY_DELAY = 2` (seconds) from the source. -/
def RETRY_DELAY : Nat := 2

/-- Configuration constant `ROOT_FOLDER_IDS = [12, 569]` from the source. -/
def ROOT_FOLDER_IDS : List Nat := [12, 569]

/-- Configuration constant `OUTPUT_DIR = Path("laws")`, as one path segment. -/
def OUTPUT_DIR : List Char := "laws".data

/-- The characters matched by the regex character class in
`sanitize_filename`, namely the raw class in the source. -/
def invalidChar (c : Char) : Bool :=
  c = '<' || c = '>' || c = ':' || c = '"' || c = '/' || c = '\\' ||
  c = '|' || c = '?' || c = '*'

/-- The substitution pass of `sanitize_filename`, embedding
`re.sub(invalid_chars, underscore, name)`: each matched character is replaced
by one underscore. -/
def subInvalid (name : List Char) : List Char :=
  name.map (fun c => if invalidChar c then '_' else c)

/-- The character set of the Python call `.strip(dot-space)`: exactly the dot
and the space character. -/
def isDotSpace (c : Char) : Bool :=
  c = '.' || c = ' '

/-- Remove the longest run of characters satisfying `p` from the end of a
list. -/
def dropWhileEnd (p : Char → Bool) (l : List Char) : List Char :=
  (l.reverse.dropWhile p).reverse

/-- The stripping pass of `sanitize_filename`, embedding the Python
`.strip(dot-space)`: remove leading and trailing dots and spaces. -/
def stripDotSpace (l : List Char) : List Char :=
  dropWhileEnd isDotSpace (l.dropWhile isDotSpace)

/-- Embedding of `sanitize_filename` from the source: substitute the invalid
characters, strip leading/trailing dots and spaces, truncate to 200
characters, and fall back to "unnamed" when the result is empty.  Note the
source truncates after stripping. -/
def sanitize_filename (name : List Char) : List Char :=
  let s1 := subInvalid name
  let s2 := stripDotSpace s1
  let s3 := if s2.length > 200 then s2.take 200 else s2
  if s3 = [] then "unnamed".data else s3

/-- Events observable from the retry loops: the start of one HTTP attempt,
and a `time.sleep` of the given number of seconds. -/
inductive Ev where
  | att : Ev
  | sleep : Nat → Ev
deriving DecidableEq

/-- Outcome of one metadata-fetch attempt in `get_folder_data`: a
network-level `requests.RequestException` (`err`), a response whose body is
not valid JSON — `response.json()` raises `JSONDecodeError`, a
`RequestException` subclass — (`malformed`), or a parsed value (`ok`). -/
inductive FetchAttempt (α : Type) where
  | err : FetchAttempt α
  | malformed : FetchAttempt α
  | ok : α → FetchAttempt α
deriving DecidableEq

/-- Whether a fetch attempt raises (is caught by the `except` clause). -/
def isFetchFail {α : Type} : FetchAttempt α → Bool
  | FetchAttempt.ok _ => false
  | _ => true

/-- The retry loop of `get_folder_data`, iterating over the remaining attempt
indices of `range(MAX_RETRIES)`. On an exception it sleeps `RETRY_DELAY`
unless this was the final attempt, then retries; after the loop it returns
`None`. -/
def fetch_loop {α : Type} (res : Nat → FetchAttempt α) :
    List Nat → Option α × List Ev
  | [] => (none, [])
  | i :: rest =>
    match res i with
    | FetchAttempt.ok d => (some d, [Ev.att])
    | FetchAttempt.err =>
      let r := fetch_loop res rest
      (r.1, Ev.att :: (if i < MAX_RETRIES - 1 then [Ev.sleep RETRY_DELAY] else []) ++ r.2)
    | FetchAttempt.malformed =>
      let r := fetch_loop res rest
      (r.1, Ev.att :: (if i < MAX_RETRIES - 1 then [Ev.sleep RETRY_DELAY] else []) ++ r.2)

/-- Embedding of `get_folder_data`: run the attempts `0, 1, 2` against the
per-attempt outcomes `res`, returning the parsed data (or `None`) together
with the trace of attempts and sleeps. -/
def get_folder_data {α : Type} (res : Nat → FetchAttempt α) : Option α × List Ev :=
  fetch_loop res (List.range MAX_RETRIES)

/-- Outcome of one download attempt in `download_file`: the full body
streamed and written (`ok n`, destination holds `n` bytes), a failure before
the destination was opened (`failEarly`, e.g. the GET or `raise_for_status`
raised), or a failure mid-stream after `n` bytes were written (`failMid n`). -/
inductive DlAttempt where
  | ok : Nat → DlAttempt
  | failEarly : DlAttempt
  | failMid : Nat → DlAttempt
deriving DecidableEq

/-- Whether a download attempt raises `requests.RequestException`. -/
def isDlFail : DlAttempt → Bool
  | DlAttempt.ok _ => false
  | _ => true

/-- Embedding of the partial-file cleanup in the `except` clause of
`download_file`: if the destination exists, unlink it.  The destination state
is `none` (no file) or `some n` (a file of `n` bytes). -/
def cleanupPartial (st : Option Nat) : Option Nat :=
  match st with
  | some _ => none
  | none => none

/-- The retry loop of `download_file` over the remaining attempt indices of
`range(MAX_RETRIES)`.  A successful attempt truncates and rewrites the
destination and returns `True` at once; a failed attempt sleeps (except after
the final attempt) and then removes any file at the destination.  Returns the
boolean result, the final destination state, and the event trace. -/
def download_loop (att : Nat → DlAttempt) :
    List Nat → Option Nat → Bool × Option Nat × List Ev
  | [], st => (false, st, [])
  | i :: rest, st =>
    match att i with
    | DlAttempt.ok n => (true, some n, [Ev.att])
    | DlAttempt.failEarly =>
      let st1 := cleanupPartial st
      let r := download_loop att rest st1
      (r.1, r.2.1, Ev.att :: (if i < MAX_RETRIES - 1 then [Ev.sleep RETRY_DELAY] else []) ++ r.2.2)
    | DlAttempt.failMid n =>
      let st1 := cleanupPartial (some n)
      let r := download_loop att rest st1
      (r.1, r.2.1, Ev.att :: (if i < MAX_RETRIES - 1 then [Ev.sleep RETRY_DELAY] else []) ++ r.2.2)

/-- Embedding of `download_file`: run attempts `0, 1, 2` with per-attempt
outcomes `att`, starting from destination state `st`. -/
def download_file (att : Nat → DlAttempt) (st : Option Nat) :
    Bool × Option Nat × List Ev :=
  download_loop att (List.range MAX_RETRIES) st

/-- The event trace of a fetch or download whose every attempt fails: three
attempts with the fixed delay between consecutive attempts and none after the
final one. -/
def allFailTrace : List Ev :=
  [Ev.att, Ev.sleep RETRY_DELAY, Ev.att, Ev.sleep RETRY_DELAY, Ev.att]

/-- One `files` array entry as used by `process_folder`:
`file_info.get('path', empty)` and `file_info.get('name', empty)`.  An absent
field and an empty string are indistinguishable to the source (both are
falsy and the default is the empty string), so both are embedded as `[]`. -/
structure FileInfo where
  path : List Char
  name : List Char
deriving DecidableEq

/-- Embedding of Python `str.split` on the slash character. -/
def splitSlash : List Char → List (List Char)
  | [] => [[]]
  | c :: rest =>
    match splitSlash rest with
    | [] => [[c]]
    | h :: t => if c = '/' then [] :: h :: t else (c :: h) :: t

/-- The last path segment, Python `file_path.split(slash)[-1]`.
`splitSlash` never returns `[]`, so the default is unreachable. -/
def lastSeg (s : List Char) : List Char :=
  (splitSlash s).getLastD []

/-- Value of a hexadecimal digit character, if it is one. -/
def hexVal (c : Char) : Option Nat :=
  if '0' ≤ c ∧ c ≤ '9' then some (c.toNat - '0'.toNat)
  else if 'a' ≤ c ∧ c ≤ 'f' then some (c.toNat - 'a'.toNat + 10)
  else if 'A' ≤ c ∧ c ≤ 'F' then some (c.toNat - 'A'.toNat + 10)
  else none

/-- Embedding of `urllib.parse.unquote`: decode percent-escapes, leaving
invalid escapes untouched.  Decoding is at code-unit level; recombination of
multi-byte UTF-8 percent-sequences into one code point is not modelled (no
claim depends on it, and it agrees with CPython on ASCII escapes). -/
def unquote : List Char → List Char
  | '%' :: a :: b :: rest =>
    match hexVal a, hexVal b with
    | some x, some y => Char.ofNat (16 * x + y) :: unquote rest
    | _, _ => '%' :: unquote (a :: b :: rest)
  | c :: rest => c :: unquote rest
  | [] => []

/-- ASCII lowercasing, embedding `str.lower()` as used by the suffix check.
Restricting to ASCII is extensionally adequate here: no character outside
`A`-`Z` lowercases to `.`, `p`, `d` or `f`. -/
def lowerAscii (c : Char) : Char :=
  if 'A' ≤ c ∧ c ≤ 'Z' then Char.ofNat (c.toNat + 32) else c

/-- The expected file extension. -/
def pdfExt : List Char := ".pdf".data

/-- Embedding of `file_name.lower().endswith(pdf-extension)`. -/
def endsWithPdf (name : List Char) : Bool :=
  pdfExt.isSuffixOf (name.map lowerAscii)

/-- The name derivation step of `process_folder`: use the entry's `name`, or
the URL-decoded last segment of its `path` when the name is empty. -/
def derivedName (fi : FileInfo) : List Char :=
  if fi.name = [] then unquote (lastSeg fi.path) else fi.name

/-- The extension-enforcement step of `process_folder`: append the extension
when the name does not already end with it (case-insensitively). -/
def withPdfExt (n : List Char) : List Char :=
  if endsWithPdf n then n else n ++ pdfExt

/-- The local file name `process_folder` saves a file entry under:
derive the name, enforce the extension, sanitize. -/
def savedName (fi : FileInfo) : List Char :=
  sanitize_filename (withPdfExt (derivedName fi))

/-- A local path, as the list of its segments. -/
abbrev FPath := List (List Char)

/-- The filesystem, as the list of existing files' paths. -/
abbrev FS := List FPath

/-- Result of one tree-walker call: the `(downloaded, failed)` counters it
returns, the filesystem after it, and the remote paths it passed to
`download_file` (its download attempts). -/
structure WalkOut where
  downloaded : Nat
  failed : Nat
  fs : FS
  tried : List (List Char)
deriving DecidableEq

/-- The per-file-entry body of the loop in `process_folder`: skip entries
with an empty `path`; compute the local path from `savedName`; if it already
exists count it as downloaded without downloading; otherwise call the
downloader (`net fi.path` is `download_file`'s boolean result, which creates
the file exactly on success and leaves nothing on failure). -/
def process_file (net : List Char → Bool) (cur : FPath) (fs : FS) (fi : FileInfo) : WalkOut :=
  if fi.path = [] then ⟨0, 0, fs, []⟩
  else
    let save := cur ++ [savedName fi]
    if save ∈ fs then ⟨1, 0, fs, []⟩
    else if net fi.path then ⟨1, 0, save :: fs, [fi.path]⟩
    else ⟨0, 1, fs, [fi.path]⟩

/-- The `files` loop of `process_folder`, accumulating counters and threading
the filesystem in the service-returned order. -/
def process_files (net : List Char → Bool) (cur : FPath) :
    List FileInfo → FS → WalkOut
  | [], fs => ⟨0, 0, fs, []⟩
  | fi :: rest, fs =>
    let r1 := process_file net cur fs fi
    let r2 := process_files net cur rest r1.fs
    ⟨r1.downloaded + r2.downloaded, r1.failed + r2.failed, r2.fs, r1.tried ++ r2.tried⟩

/-- The remote folder tree as `get_folder_data` deterministically reports it:
`failed` when the fetch for this folder's id returns `None`, otherwise the
JSON object's optional `name`, `files` and `folders` fields.  A `folders`
entry is its optional `id`, optional `name`, and the subtree reached by
recursing on that id. -/
inductive FolderNode where
  | failed : FolderNode
  | ok : Option (List Char) → Option (List FileInfo) →
      Option (List (Option Nat × Option (List Char) × FolderNode)) → FolderNode

/-- One `folders` array entry: optional id, optional name, subtree. -/
abbrev SubEntry := Option Nat × Option (List Char) × FolderNode

/-- Default display name for a subfolder whose `name` field is absent,
Python `f-string folder_ id`. -/
def folderDefaultName (i : Nat) : List Char :=
  "folder_".data ++ (toString i).data

mutual
/-- Embedding of `process_folder`: on fetch failure return `(0, 0)` at once;
otherwise process the `files` entries (defaulting an absent field to the
empty array, as `data.get` does), then the `folders` entries, accumulating
counters. -/
def process_folder (net : List Char → Bool) : FolderNode → FPath → FS → WalkOut
  | FolderNode.failed, _, fs => ⟨0, 0, fs, []⟩
  | FolderNode.ok _ files subs, cur, fs =>
    let rf := process_files net cur (files.getD []) fs
    let rs := process_subs_opt net subs cur rf.fs
    ⟨rf.downloaded + rs.downloaded, rf.failed + rs.failed, rs.fs, rf.tried ++ rs.tried⟩
/-- The `data.get('folders', empty)` defaulting before the subfolder loop. -/
def process_subs_opt (net : List Char → Bool) : Option (List SubEntry) → FPath → FS → WalkOut
  | none, _, fs => ⟨0, 0, fs, []⟩
  | some l, cur, fs => process_subs net l cur fs
/-- The `folders` loop of `process_folder`: skip entries with no id; default
an absent name; create the subdirectory (not tracked in `FS`, which holds
files) and recurse, accumulating counters. -/
def process_subs (net : List Char → Bool) : List SubEntry → FPath → FS → WalkOut
  | [], _, fs => ⟨0, 0, fs, []⟩
  | (oid, oname, sub) :: rest, cur, fs =>
    match oid with
    | none => process_subs net rest cur fs
    | some i =>
      let sname := oname.getD (folderDefaultName i)
      let spath := cur ++ [sanitize_filename sname]
      let r1 := process_folder net sub spath fs
      let r2 := process_subs net rest cur r1.fs
      ⟨r1.downloaded + r2.downloaded, r1.failed + r2.failed, r2.fs, r1.tried ++ r2.tried⟩
end

/-- Default root display name when the fetched object has no `name` field,
Python `f-string resources_ root_id`. -/
def fallbackRootName (rid : Nat) : List Char :=
  "resources_".data ++ (toString rid).data

/-- Result of processing one configured root id in `main`: the counters, the
filesystem, the download attempts, and the top-level directories `main`
created for this root. -/
structure RootOut where
  downloaded : Nat
  failed : Nat
  fs : FS
  tried : List (List Char)
  dirs : List FPath
deriving DecidableEq

/-- The per-root body of the loop in `main`: fetch the root's metadata (the
same deterministic remote data the walker sees, so the same `FolderNode`); on
failure `continue` — no directory is created and the walker is not invoked;
on success create `OUTPUT_DIR / sanitized-root-name` and walk the root. -/
def process_root (net : List Char → Bool) (t : FolderNode) (rid : Nat) (fs : FS) : RootOut :=
  match t with
  | FolderNode.failed => ⟨0, 0, fs, [], []⟩
  | FolderNode.ok nm files subs =>
    let root_name := nm.getD (fallbackRootName rid)
    let root_path := [OUTPUT_DIR, sanitize_filename root_name]
    let w := process_folder net (FolderNode.ok nm files subs) root_path fs
    ⟨w.downloaded, w.failed, w.fs, w.tried, [root_path]⟩

/-! ### Basic equations of the embedded functions -/

theorem process_file_empty {net : List Char → Bool} {cur : FPath} {fs : FS} {fi : FileInfo}
    (hp : fi.path = []) : process_file net cur fs fi = ⟨0, 0, fs, []⟩ := by
  simp [process_file, hp]

theorem process_file_skip {net : List Char → Bool} {cur : FPath} {fs : FS} {fi : FileInfo}
    (hp : fi.path ≠ []) (hm : (cur ++ [savedName fi]) ∈ fs) :
    process_file net cur fs fi = ⟨1, 0, fs, []⟩ := by
  simp [process_file, hp, hm]

theorem process_file_dl {net : List Char → Bool} {cur : FPath} {fs : FS} {fi : FileInfo}
    (hp : fi.path ≠ []) (hm : (cur ++ [savedName fi]) ∉ fs) (hnet : net fi.path = true) :
    process_file net cur fs fi = ⟨1, 0, (cur ++ [savedName fi]) :: fs, [fi.path]⟩ := by
  simp [process_file, hp, hm, hnet]

theorem process_file_fail {net : List Char → Bool} {cur : FPath} {fs : FS} {fi : FileInfo}
    (hp : fi.path ≠ []) (hm : (cur ++ [savedName fi]) ∉ fs) (hnet : net fi.path = false) :
    process_file net cur fs fi = ⟨0, 1, fs, [fi.path]⟩ := by
  simp [process_file, hp, hm, hnet]

theorem process_files_nil {net : List Char → Bool} {cur : FPath} {fs : FS} :
    process_files net cur [] fs = ⟨0, 0, fs, []⟩ := rfl

theorem process_files_cons {net : List Char → Bool} {cur : FPath} {fs : FS} {fi : FileInfo}
    {rest : List FileInfo} :
    process_files net cur (fi :: rest) fs =
      ⟨(process_file net cur fs fi).downloaded
         + (process_files net cur rest (process_file net cur fs fi).fs).downloaded,
       (process_file net cur fs fi).failed
         + (process_files net cur rest (process_file net cur fs fi).fs).failed,
       (process_files net cur rest (process_file net cur fs fi).fs).fs,
       (process_file net cur fs fi).tried
         ++ (process_files net cur rest (process_file net cur fs fi).fs).tried⟩ := rfl

theorem process_folder_failed {net : List Char → Bool} {cur : FPath} {fs : FS} :
    process_folder net FolderNode.failed cur fs = ⟨0, 0, fs, []⟩ := rfl

theorem process_folder_ok {net : List Char → Bool} {cur : FPath} {fs : FS}
    {nm : Option (List Char)} {files : Option (List FileInfo)} {subs : Option (List SubEntry)} :
    process_folder net (FolderNode.ok nm files subs) cur fs =
      ⟨(process_files net cur (files.getD []) fs).downloaded
         + (process_subs_opt net subs cur (process_files net cur (files.getD []) fs).fs).downloaded,
       (process_files net cur (files.getD []) fs).failed
         + (process_subs_opt net subs cur (process_files net cur (files.getD []) fs).fs).failed,
       (process_subs_opt net subs cur (process_files net cur (files.getD []) fs).fs).fs,
       (process_files net cur (files.getD []) fs).tried
         ++ (process_subs_opt net subs cur (process_files net cur (files.getD []) fs).fs).tried⟩ := rfl

theorem process_subs_opt_none {net : List Char → Bool} {cur : FPath} {fs : FS} :
    process_subs_opt net none cur fs = ⟨0, 0, fs, []⟩ := rfl

theorem process_subs_opt_some {net : List Char → Bool} {cur : FPath} {fs : FS}
    {l : List SubEntry} : process_subs_opt net (some l) cur fs = process_subs net l cur fs := rfl

theorem process_subs_nil {net : List Char → Bool} {cur : FPath} {fs : FS} :
    process_subs net [] cur fs = ⟨0, 0, fs, []⟩ := rfl

theorem process_subs_cons_none {net : List Char → Bool} {cur : FPath} {fs : FS}
    {oname : Option (List Char)} {sub : FolderNode} {rest : List SubEntry} :
    process_subs net ((none, oname, sub) :: rest) cur fs = process_subs net rest cur fs := rfl

theorem process_subs_cons_some {net : List Char → Bool} {cur : FPath} {fs : FS} {i : Nat}
    {oname : Option (List Char)} {sub : FolderNode} {rest : List SubEntry} :
    process_subs net ((some i, oname, sub) :: rest) cur fs =
      ⟨(process_folder net sub (cur ++ [sanitize_filename (oname.getD (folderDefaultName i))]) fs).downloaded
         + (process_subs net rest cur
             (process_folder net sub (cur ++ [sanitize_filename (oname.getD (folderDefaultName i))]) fs).fs).downloaded,
       (process_folder net sub (cur ++ [sanitize_filename (oname.getD (folderDefaultName i))]) fs).failed
         + (process_subs net rest cur
             (process_folder net sub (cur ++ [sanitize_filename (oname.getD (folderDefaultName i))]) fs).fs).failed,
       (process_subs net rest cur
         (process_folder net sub (cur ++ [sanitize_filename (oname.getD (folderDefaultName i))]) fs).fs).fs,
       (process_folder net sub (cur ++ [sanitize_filename (oname.getD (folderDefaultName i))]) fs).tried
         ++ (process_subs net rest cur
             (process_folder net sub (cur ++ [sanitize_filename (oname.getD (folderDefaultName i))]) fs).fs).tried⟩ := rfl

/-! ### Properties of the sanitizer -/

theorem mem_subInvalid_not_invalid {s : List Char} {c : Char} (h : c ∈ subInvalid s) :
    invalidChar c = false := by
  obtain ⟨a, -, rfl⟩ := List.mem_map.mp h
  by_cases ha : invalidChar a = true
  · rw [if_pos ha]; decide
  · rw [if_neg ha]; simpa using ha

theorem mem_of_mem_dropWhileEnd {p : Char → Bool} {l : List Char} {c : Char}
    (h : c ∈ dropWhileEnd p l) : c ∈ l := by
  unfold dropWhileEnd at h
  rw [List.mem_reverse] at h
  have h2 := (List.dropWhile_suffix p).subset h
  rwa [List.mem_reverse] at h2

theorem mem_of_mem_stripDotSpace {l : List Char} {c : Char} (h : c ∈ stripDotSpace l) : c ∈ l := by
  unfold stripDotSpace at h
  exact (List.dropWhile_suffix isDotSpace).subset (mem_of_mem_dropWhileEnd h)

theorem head?_dropWhile_false {p : Char → Bool} {l : List Char} {c : Char}
    (h : (l.dropWhile p).head? = some c) : p c = false := by
  have h2 := List.head?_dropWhile_not p l
  rw [h] at h2
  exact h2

theorem getLast?_dropWhileEnd_false {p : Char → Bool} {l : List Char} {c : Char}
    (h : (dropWhileEnd p l).getLast? = some c) : p c = false := by
  unfold dropWhileEnd at h
  rw [List.getLast?_reverse] at h
  exact head?_dropWhile_false h

theorem head?_dropWhileEnd_eq {p : Char → Bool} {l : List Char} {c : Char}
    (h : (dropWhileEnd p l).head? = some c) : l.head? = some c := by
  obtain ⟨t, ht⟩ := List.dropWhile_suffix (l := l.reverse) p
  have hl : l = dropWhileEnd p l ++ t.reverse := by
    have h2 := congrArg List.reverse ht
    rw [List.reverse_append, List.reverse_reverse] at h2
    exact h2.symm
  rw [hl, List.head?_append, h]
  rfl

theorem head?_stripDotSpace_false {l : List Char} {c : Char}
    (h : (stripDotSpace l).head? = some c) : isDotSpace c = false := by
  unfold stripDotSpace at h
  exact head?_dropWhile_false (head?_dropWhileEnd_eq h)

theorem getLast?_stripDotSpace_false {l : List Char} {c : Char}
    (h : (stripDotSpace l).getLast? = some c) : isDotSpace c = false := by
  unfold stripDotSpace at h
  exact getLast?_dropWhileEnd_false h

theorem sanitize_filename_of_nil {s : List Char} (h : stripDotSpace (subInvalid s) = []) :
    sanitize_filename s = "unnamed".data := by
  simp [sanitize_filename, h]

theorem sanitize_filename_of_le {s : List Char} (h1 : stripDotSpace (subInvalid s) ≠ [])
    (h2 : (stripDotSpace (subInvalid s)).length ≤ 200) :
    sanitize_filename s = stripDotSpace (subInvalid s) := by
  simp only [sanitize_filename]
  rw [if_neg (by omega : ¬ (stripDotSpace (subInvalid s)).length > 200), if_neg h1]

theorem sanitize_filename_of_gt {s : List Char}
    (h2 : (stripDotSpace (subInvalid s)).length > 200) :
    sanitize_filename s = (stripDotSpace (subInvalid s)).take 200 := by
  simp only [sanitize_filename]
  rw [if_pos h2, if_neg]
  intro hnil
  have h3 := congrArg List.length hnil
  rw [List.length_take] at h3
  simp only [List.length_nil] at h3
  omega

theorem sanitize_filename_ne_nil (s : List Char) : sanitize_filename s ≠ [] := by
  by_cases h : stripDotSpace (subInvalid s) = []
  · rw [sanitize_filename_of_nil h]; decide
  · by_cases h2 : (stripDotSpace (subInvalid s)).length > 200
    · rw [sanitize_filename_of_gt h2]
      intro hnil
      have h3 := congrArg List.length hnil
      rw [List.length_take] at h3
      simp only [List.length_nil] at h3
      omega
    · rw [sanitize_filename_of_le h (by omega)]; exact h

theorem sanitize_filename_length_le (s : List Char) : (sanitize_filename s).length ≤ 200 := by
  by_cases h : stripDotSpace (subInvalid s) = []
  · rw [sanitize_filename_of_nil h]; decide
  · by_cases h2 : (stripDotSpace (subInvalid s)).length > 200
    · rw [sanitize_filename_of_gt h2, List.length_take]; omega
    · rw [sanitize_filename_of_le h (by omega)]; omega

theorem mem_sanitize_filename_not_invalid {s : List Char} {c : Char}
    (h : c ∈ sanitize_filename s) : invalidChar c = false := by
  by_cases h0 : stripDotSpace (subInvalid s) = []
  · rw [sanitize_filename_of_nil h0] at h
    have h1 : ∀ x ∈ "unnamed".data, invalidChar x = false := by decide
    exact h1 c h
  · by_cases h2 : (stripDotSpace (subInvalid s)).length > 200
    · rw [sanitize_filename_of_gt h2] at h
      exact mem_subInvalid_not_invalid
        (mem_of_mem_stripDotSpace ((List.take_sublist _ _).subset h))
    · rw [sanitize_filename_of_le h0 (by omega)] at h
      exact mem_subInvalid_not_invalid (mem_of_mem_stripDotSpace h)

theorem head?_sanitize_filename_false {s : List Char} {c : Char}
    (h : (sanitize_filename s).head? = some c) : isDotSpace c = false := by
  by_cases h0 : stripDotSpace (subInvalid s) = []
  · rw [sanitize_filename_of_nil h0] at h
    rw [show ("unnamed".data).head? = some 'u' from rfl] at h
    obtain rfl := Option.some.inj h
    decide
  · by_cases h2 : (stripDotSpace (subInvalid s)).length > 200
    · rw [sanitize_filename_of_gt h2, List.head?_take,
        if_neg (by decide : ¬ ((200 : Nat) = 0))] at h
      exact head?_stripDotSpace_false h
    · rw [sanitize_filename_of_le h0 (by omega)] at h
      exact head?_stripDotSpace_false h

theorem getLast?_sanitize_filename_false {s : List Char} {c : Char}
    (hle : (stripDotSpace (subInvalid s)).length ≤ 200)
    (h : (sanitize_filename s).getLast? = some c) : isDotSpace c = false := by
  by_cases h0 : stripDotSpace (subInvalid s) = []
  · rw [sanitize_filename_of_nil h0] at h
    rw [show ("unnamed".data).getLast? = some 'd' from rfl] at h
    obtain rfl := Option.some.inj h
    decide
  · rw [sanitize_filename_of_le h0 hle] at h
    exact getLast?_stripDotSpace_false h

theorem ne_nil_of_endsWithPdf {n : List Char} (h : endsWithPdf n = true) : n ≠ [] := by
  intro hn
  rw [hn] at h
  exact absurd h (by decide)

/-! ### Claims C7 and C8 (the Name Sanitizer) -/

set_option maxRecDepth 4000 in
/-- Claim C7 counterexample: the claim that the sanitizer's output never has
leading or trailing whitespace or dots is false on the code.  Truncation to
200 characters happens after stripping and can reintroduce a trailing dot
(first input, 199 letters followed by a dot and a letter), and only the space
character is stripped, so a tab survives at either end (second input). -/
theorem C7_counterexample :
    (sanitize_filename (List.replicate 199 'a' ++ ['.', 'b'])).getLast? = some '.' ∧
    (sanitize_filename ['\t', 'a']).head? = some '\t' := by
  exact ⟨by decide, by decide⟩

/-- Claim C7 (amended): the sanitizer's output never starts with a dot or a
space; and when the cleaned (substituted and stripped) string has length at
most 200 — so the final truncation does not cut it — the output also never
ends with a dot or a space.  Truncation can reintroduce a trailing dot or
space, and characters other than the dot and the space (such as tab) are
never trimmed. -/
theorem C7_amended (s : List Char) :
    (∀ c, (sanitize_filename s).head? = some c → isDotSpace c = false) ∧
    ((stripDotSpace (subInvalid s)).length ≤ 200 →
      ∀ c, (sanitize_filename s).getLast? = some c → isDotSpace c = false) :=
  ⟨fun _ h => head?_sanitize_filename_false h,
   fun hle _ h => getLast?_sanitize_filename_false hle h⟩

/-- Claim C7 witness: the amended claim applied at the concrete input "ab". -/
theorem C7_witness : isDotSpace 'a' = false ∧ isDotSpace 'b' = false :=
  ⟨(C7_amended ['a', 'b']).1 'a' (by decide),
   (C7_amended ['a', 'b']).2 (by decide) 'b' (by decide)⟩

/-- Claim C8: for every input, the sanitizer returns a non-empty string of
length at most 200 containing none of the reserved characters, substituting
the fixed fallback token "unnamed" when the cleaned result is empty. -/
theorem C8_sanitizer_safe (s : List Char) :
    sanitize_filename s ≠ [] ∧
    (sanitize_filename s).length ≤ 200 ∧
    (∀ c ∈ sanitize_filename s, invalidChar c = false) ∧
    (stripDotSpace (subInvalid s) = [] → sanitize_filename s = "unnamed".data) :=
  ⟨sanitize_filename_ne_nil s, sanitize_filename_length_le s,
   fun _ hc => mem_sanitize_filename_not_invalid hc,
   fun h => sanitize_filename_of_nil h⟩

/-- Claim C8 witness: the claim applied at the concrete input ".", whose
cleaned form is empty, so the output is the fallback token. -/
theorem C8_witness : invalidChar 'u' = false ∧ sanitize_filename ['.'] = "unnamed".data :=
  ⟨(C8_sanitizer_safe ['.']).2.2.1 'u' (by decide), (C8_sanitizer_safe ['.']).2.2.2 (by decide)⟩

/-! ### Claim C1 (the saved file name) -/

/-- Claim C1 counterexample: the claim that the name a file entry is saved
under always ends in the pdf extension (case-insensitively) is false on the
code.  For the entry with path "x" and name ".pdf", the name already ends in
the extension, so nothing is appended, and the sanitizer then strips the
leading dot: the entry is saved under the name "pdf", which does not end in
the extension. -/
theorem C1_counterexample :
    savedName ⟨['x'], ['.', 'p', 'd', 'f']⟩ = ['p', 'd', 'f'] ∧
    endsWithPdf ['p', 'd', 'f'] = false ∧
    (process_file (fun _ => true) [] [] ⟨['x'], ['.', 'p', 'd', 'f']⟩).fs
      = [[['p', 'd', 'f']]] := by
  exact ⟨by decide, by decide, by decide⟩

/-- Claim C1 (amended): every processed file entry is saved under
`savedName`, which is sanitized, non-empty and at most 200 characters, with
the extension appended exactly once when the derived name lacks it
(case-insensitively) and not appended when it does not; the saved name still
ends in the extension provided the cleaned name-with-extension is not cut by
the 200-character truncation and still ends in the extension after
substitution and stripping (stripping can remove the dot when the whole name
is the extension, and truncation can cut the extension off). -/
theorem C1_amended (fi : FileInfo) (hp : fi.path ≠ []) :
    (∀ (net : List Char → Bool) (cur : FPath) (fs : FS),
        (cur ++ [savedName fi]) ∉ fs → net fi.path = true →
        process_file net cur fs fi = ⟨1, 0, (cur ++ [savedName fi]) :: fs, [fi.path]⟩) ∧
    savedName fi ≠ [] ∧
    (savedName fi).length ≤ 200 ∧
    (∀ c ∈ savedName fi, invalidChar c = false) ∧
    (endsWithPdf (derivedName fi) = false →
        withPdfExt (derivedName fi) = derivedName fi ++ pdfExt) ∧
    (endsWithPdf (derivedName fi) = true → withPdfExt (derivedName fi) = derivedName fi) ∧
    ((stripDotSpace (subInvalid (withPdfExt (derivedName fi)))).length ≤ 200 →
      endsWithPdf (stripDotSpace (subInvalid (withPdfExt (derivedName fi)))) = true →
      endsWithPdf (savedName fi) = true) := by
  refine ⟨fun net cur fs hm hnet => process_file_dl hp hm hnet,
    sanitize_filename_ne_nil _, sanitize_filename_length_le _,
    fun _ hc => mem_sanitize_filename_not_invalid hc, ?_, ?_, ?_⟩
  · intro h
    unfold withPdfExt
    rw [if_neg (by simp [h])]
  · intro h
    unfold withPdfExt
    rw [if_pos h]
  · intro hle hpdf
    unfold savedName
    rw [sanitize_filename_of_le (ne_nil_of_endsWithPdf hpdf) hle]
    exact hpdf

/-- Claim C1 witness: the amended claim applied at the concrete entry with
path "a" and no name; the derived name is "a", the extension is appended, and
the entry is saved under "a.pdf". -/
theorem C1_witness :
    process_file (fun _ => true) [] [] ⟨['a'], []⟩
      = ⟨1, 0, [[savedName ⟨['a'], []⟩]], [['a']]⟩ ∧
    endsWithPdf (savedName ⟨['a'], []⟩) = true := by
  have h := C1_amended ⟨['a'], []⟩ (by decide)
  exact ⟨h.1 (fun _ => true) [] [] (by decide) rfl, h.2.2.2.2.2.2 (by decide) (by decide)⟩

/-! ### Claim C10 (file entries with an empty path) -/

/-- Claim C10: a file entry whose path is absent or empty is skipped entirely
by the tree walker — no download attempt, no filesystem change, no counter
change — even when the entry carries a non-empty name. -/
theorem C10_empty_path_skipped (net : List Char → Bool) (cur : FPath) (fs : FS)
    (nm : List Char) (rest : List FileInfo) :
    process_file net cur fs ⟨[], nm⟩ = ⟨0, 0, fs, []⟩ ∧
    process_files net cur (⟨[], nm⟩ :: rest) fs = process_files net cur rest fs := by
  constructor
  · exact process_file_empty rfl
  · rw [process_files_cons, process_file_empty rfl]
    simp

/-! ### Properties of the retry loops -/

theorem cleanupPartial_eq (st : Option Nat) : cleanupPartial st = none := by
  cases st <;> rfl

theorem fetch_loop_fail_step {α : Type} (res : Nat → FetchAttempt α) (i : Nat) (rest : List Nat)
    (h : isFetchFail (res i) = true) :
    fetch_loop res (i :: rest) =
      ((fetch_loop res rest).1,
       Ev.att :: (if i < MAX_RETRIES - 1 then [Ev.sleep RETRY_DELAY] else [])
         ++ (fetch_loop res rest).2) := by
  cases hres : res i with
  | ok d => rw [hres] at h; exact absurd h (by simp [isFetchFail])
  | err => simp [fetch_loop, hres]
  | malformed => simp [fetch_loop, hres]

theorem fetch_all_fail {α : Type} (res : Nat → FetchAttempt α)
    (h : ∀ i, i < MAX_RETRIES → isFetchFail (res i) = true) :
    get_folder_data res = (none, allFailTrace) := by
  have h0 := fetch_loop_fail_step res 0 [1, 2] (h 0 (by decide))
  have h1 := fetch_loop_fail_step res 1 [2] (h 1 (by decide))
  have h2 := fetch_loop_fail_step res 2 [] (h 2 (by decide))
  have hr : List.range MAX_RETRIES = [0, 1, 2] := rfl
  unfold get_folder_data
  rw [hr, h0, h1, h2]
  rfl

theorem download_loop_fail_step (att : Nat → DlAttempt) (i : Nat) (rest : List Nat)
    (st : Option Nat) (h : isDlFail (att i) = true) :
    download_loop att (i :: rest) st =
      ((download_loop att rest none).1, (download_loop att rest none).2.1,
       Ev.att :: (if i < MAX_RETRIES - 1 then [Ev.sleep RETRY_DELAY] else [])
         ++ (download_loop att rest none).2.2) := by
  cases hatt : att i with
  | ok n => rw [hatt] at h; exact absurd h (by simp [isDlFail])
  | failEarly => simp [download_loop, hatt, cleanupPartial_eq]
  | failMid n => simp [download_loop, hatt, cleanupPartial_eq]

theorem download_all_fail (att : Nat → DlAttempt) (st : Option Nat)
    (h : ∀ i, i < MAX_RETRIES → isDlFail (att i) = true) :
    download_file att st = (false, none, allFailTrace) := by
  have h0 := download_loop_fail_step att 0 [1, 2] st (h 0 (by decide))
  have h1 := download_loop_fail_step att 1 [2] none (h 1 (by decide))
  have h2 := download_loop_fail_step att 2 [] none (h 2 (by decide))
  have hr : List.range MAX_RETRIES = [0, 1, 2] := rfl
  unfold download_file
  rw [hr, h0, h1, h2]
  rfl

theorem download_loop_false_state (att : Nat → DlAttempt) :
    ∀ (l : List Nat) (st : Option Nat), l ≠ [] →
      (download_loop att l st).1 = false → (download_loop att l st).2.1 = none
  | [], _, hne, _ => absurd rfl hne
  | i :: rest, st, _, hfalse => by
    cases hatt : att i with
    | ok n =>
      rw [show download_loop att (i :: rest) st = (true, some n, [Ev.att]) by
        simp [download_loop, hatt]] at hfalse
      exact absurd hfalse (by simp)
    | failEarly =>
      have he : download_loop att (i :: rest) st =
          ((download_loop att rest none).1, (download_loop att rest none).2.1,
           Ev.att :: (if i < MAX_RETRIES - 1 then [Ev.sleep RETRY_DELAY] else [])
             ++ (download_loop att rest none).2.2) := by
        simp [download_loop, hatt, cleanupPartial_eq]
      rw [he] at hfalse ⊢
      cases rest with
      | nil => rfl
      | cons j rest2 =>
        exact download_loop_false_state att (j :: rest2) none (by simp) hfalse
    | failMid n =>
      have he : download_loop att (i :: rest) st =
          ((download_loop att rest none).1, (download_loop att rest none).2.1,
           Ev.att :: (if i < MAX_RETRIES - 1 then [Ev.sleep RETRY_DELAY] else [])
             ++ (download_loop att rest none).2.2) := by
        simp [download_loop, hatt, cleanupPartial_eq]
      rw [he] at hfalse ⊢
      cases rest with
      | nil => rfl
      | cons j rest2 =>
        exact download_loop_false_state att (j :: rest2) none (by simp) hfalse

/-! ### Claims C3, C4 and C9 (the retry clients) -/

/-- Claim C3: whenever `download_file` returns failure — in particular after
a mid-stream network error that left bytes at the destination — no file
exists at the destination path when it returns: every failed attempt removes
the partially written file. -/
theorem C3_partial_cleanup (att : Nat → DlAttempt) (st : Option Nat)
    (h : (download_file att st).1 = false) : (download_file att st).2.1 = none :=
  download_loop_false_state att (List.range MAX_RETRIES) st (by decide) h

/-- Claim C3 witness: the claim applied to a download whose every attempt
fails mid-stream after writing 5 bytes. -/
theorem C3_witness : (download_file (fun _ => DlAttempt.failMid 5) none).2.1 = none :=
  C3_partial_cleanup (fun _ => DlAttempt.failMid 5) none (by decide)

/-- Claim C4: when every attempt fails with a network-level error, both
`get_folder_data` and `download_file` make exactly `MAX_RETRIES = 3` attempts
with the fixed `RETRY_DELAY = 2` second sleep between consecutive attempts
and none after the final one, and report failure (`none`, respectively
`false`) instead of raising. -/
theorem C4_retry_bound {α : Type} (res : Nat → FetchAttempt α) (att : Nat → DlAttempt)
    (st : Option Nat)
    (hres : ∀ i, i < MAX_RETRIES → isFetchFail (res i) = true)
    (hatt : ∀ i, i < MAX_RETRIES → isDlFail (att i) = true) :
    get_folder_data res = (none, allFailTrace) ∧
    download_file att st = (false, none, allFailTrace) ∧
    allFailTrace.count Ev.att = MAX_RETRIES :=
  ⟨fetch_all_fail res hres, download_all_fail att st hatt, by decide⟩

/-- Claim C4 witness: the claim applied to a fetch whose attempts all raise
and a download whose attempts all fail mid-stream. -/
theorem C4_witness :
    get_folder_data (fun _ => (FetchAttempt.err : FetchAttempt Nat)) = (none, allFailTrace) ∧
    download_file (fun _ => DlAttempt.failMid 100) none = (false, none, allFailTrace) := by
  have h := C4_retry_bound (fun _ => (FetchAttempt.err : FetchAttempt Nat))
    (fun _ => DlAttempt.failMid 100) none (fun _ _ => rfl) (fun _ _ => rfl)
  exact ⟨h.1, h.2.1⟩

/-- Claim C9: the folder fetcher returns the parsed data when an attempt
succeeds (shown for a first-attempt success) and `none` when every attempt
fails, including malformed responses (which raise a `RequestException`
subclass); absent `files` and `folders` fields make the walker behave exactly
as for empty arrays, and an absent subfolder `name` is defaulted to the
derived id-based name — never a hard error. -/
theorem C9_fetch_defaults {α : Type} (res : Nat → FetchAttempt α)
    (h : ∀ i, i < MAX_RETRIES → isFetchFail (res i) = true) :
    (get_folder_data res).1 = none ∧
    (∀ (res2 : Nat → FetchAttempt α) (d : α), res2 0 = FetchAttempt.ok d →
        (get_folder_data res2).1 = some d) ∧
    (∀ (net : List Char → Bool) (nm : Option (List Char)) (cur : FPath) (fs : FS),
        process_folder net (FolderNode.ok nm none none) cur fs =
          process_folder net (FolderNode.ok nm (some []) (some [])) cur fs) ∧
    (∀ (net : List Char → Bool) (i : Nat) (sub : FolderNode) (rest : List SubEntry)
        (cur : FPath) (fs : FS),
        process_subs net ((some i, none, sub) :: rest) cur fs =
          process_subs net ((some i, some (folderDefaultName i), sub) :: rest) cur fs) := by
  refine ⟨by rw [fetch_all_fail res h], ?_, fun _ _ _ _ => rfl, fun _ _ _ _ _ _ => rfl⟩
  intro res2 d h2
  have hr : List.range MAX_RETRIES = [0, 1, 2] := rfl
  unfold get_folder_data
  rw [hr]
  simp [fetch_loop, h2]

/-- Claim C9 witness: the claim applied to an always-failing fetch and, for
the success conjunct, a fetch whose first attempt returns the value 7. -/
theorem C9_witness :
    (get_folder_data (fun _ => (FetchAttempt.err : FetchAttempt Nat))).1 = none ∧
    (get_folder_data (fun _ => (FetchAttempt.ok 7 : FetchAttempt Nat))).1 = some 7 := by
  have h := C9_fetch_defaults (fun _ => (FetchAttempt.err : FetchAttempt Nat)) (fun _ _ => rfl)
  exact ⟨h.1, h.2.1 (fun _ => (FetchAttempt.ok 7 : FetchAttempt Nat)) 7 rfl⟩

/-! ### Claim C5 (fetch failure scoped to the subtree) -/

/-- Claim C5: when the metadata fetch for a folder fails, `process_folder`
returns exactly `(0, 0)` for that subtree without touching the filesystem or
attempting any download, and a failed subtree in the subfolder list leaves
the processing of its siblings — counters, filesystem and attempts —
entirely unaffected. -/
theorem C5_fetch_failure_scoped (net : List Char → Bool) (cur : FPath) (fs : FS)
    (i : Nat) (nm : Option (List Char)) (rest : List SubEntry) :
    process_folder net FolderNode.failed cur fs = ⟨0, 0, fs, []⟩ ∧
    process_subs net ((some i, nm, FolderNode.failed) :: rest) cur fs =
      process_subs net rest cur fs := by
  constructor
  · exact process_folder_failed
  · rw [process_subs_cons_some, process_folder_failed]
    simp

/-! ### Claim C6 (the per-root behavior of main) -/

/-- Claim C6 counterexample: the claim that the run controller creates the
top-level local directory in every case — with a fallback name when the
metadata fetch fails — is false on the code.  When the root fetch fails,
`main` continues to the next root before any `mkdir`: no directory is
created and the walker is not invoked. -/
theorem C6_counterexample :
    (process_root (fun _ => true) FolderNode.failed 12 []).dirs = [] ∧
    (process_root (fun _ => true) FolderNode.failed 12 []).tried = [] := by
  exact ⟨by decide, by decide⟩

/-- Claim C6 (amended): for each configured root id, the run controller
creates the top-level directory only when the root metadata fetch succeeds,
naming it with the sanitized display name — falling back to the id-derived
name only when the `name` field is absent, not when the fetch fails — and
invokes the tree walker on that id and path only if the fetch succeeded; a
failed root fetch creates no directory and walks nothing. -/
theorem C6_root_behavior (net : List Char → Bool) (rid : Nat) (fs : FS) :
    process_root net FolderNode.failed rid fs = ⟨0, 0, fs, [], []⟩ ∧
    (∀ (nm : Option (List Char)) (files : Option (List FileInfo))
        (subs : Option (List SubEntry)),
      process_root net (FolderNode.ok nm files subs) rid fs =
        ⟨(process_folder net (FolderNode.ok nm files subs)
            [OUTPUT_DIR, sanitize_filename (nm.getD (fallbackRootName rid))] fs).downloaded,
         (process_folder net (FolderNode.ok nm files subs)
            [OUTPUT_DIR, sanitize_filename (nm.getD (fallbackRootName rid))] fs).failed,
         (process_folder net (FolderNode.ok nm files subs)
            [OUTPUT_DIR, sanitize_filename (nm.getD (fallbackRootName rid))] fs).fs,
         (process_folder net (FolderNode.ok nm files subs)
            [OUTPUT_DIR, sanitize_filename (nm.getD (fallbackRootName rid))] fs).tried,
         [[OUTPUT_DIR, sanitize_filename (nm.getD (fallbackRootName rid))]]⟩) :=
  ⟨rfl, fun _ _ _ => rfl⟩

/-! ### Monotonicity of the walker's filesystem -/

theorem process_file_fs_sub (net : List Char → Bool) (cur : FPath) (fs : FS) (fi : FileInfo) :
    fs ⊆ (process_file net cur fs fi).fs := by
  by_cases hp : fi.path = []
  · rw [process_file_empty hp]; exact fun _ h => h
  · by_cases hm : (cur ++ [savedName fi]) ∈ fs
    · rw [process_file_skip hp hm]; exact fun _ h => h
    · cases hnet : net fi.path with
      | true =>
        rw [process_file_dl hp hm hnet]
        exact List.subset_cons_self _ _
      | false => rw [process_file_fail hp hm hnet]; exact fun _ h => h

theorem process_files_fs_sub (net : List Char → Bool) (cur : FPath) :
    ∀ (l : List FileInfo) (fs : FS), fs ⊆ (process_files net cur l fs).fs
  | [], _ => fun _ h => h
  | fi :: rest, fs =>
    (process_file_fs_sub net cur fs fi).trans
      (process_files_fs_sub net cur rest (process_file net cur fs fi).fs)

mutual
theorem process_folder_fs_sub (net : List Char → Bool) :
    ∀ (t : FolderNode) (cur : FPath) (fs : FS), fs ⊆ (process_folder net t cur fs).fs
  | FolderNode.failed, _, _ => fun _ h => h
  | FolderNode.ok _nm files subs, cur, fs =>
    (process_files_fs_sub net cur (files.getD []) fs).trans
      (process_subs_opt_fs_sub net subs cur (process_files net cur (files.getD []) fs).fs)
theorem process_subs_opt_fs_sub (net : List Char → Bool) :
    ∀ (o : Option (List SubEntry)) (cur : FPath) (fs : FS),
      fs ⊆ (process_subs_opt net o cur fs).fs
  | none, _, _ => fun _ h => h
  | some l, cur, fs => process_subs_fs_sub net l cur fs
theorem process_subs_fs_sub (net : List Char → Bool) :
    ∀ (l : List SubEntry) (cur : FPath) (fs : FS), fs ⊆ (process_subs net l cur fs).fs
  | [], _, _ => fun _ h => h
  | (oid, oname, sub) :: rest, cur, fs => by
    cases oid with
    | none => exact process_subs_fs_sub net rest cur fs
    | some i =>
      exact (process_folder_fs_sub net sub
          (cur ++ [sanitize_filename (oname.getD (folderDefaultName i))]) fs).trans
        (process_subs_fs_sub net rest cur
          (process_folder net sub
            (cur ++ [sanitize_filename (oname.getD (folderDefaultName i))]) fs).fs)
end

/-! ### Re-running the walker over a filesystem containing its output -/

theorem process_file_rerun (net : List Char → Bool) (cur : FPath) (fi : FileInfo)
    (fs fs' : FS) (h0 : (process_file net cur fs fi).failed = 0)
    (hsub : (process_file net cur fs fi).fs ⊆ fs') :
    process_file net cur fs' fi = ⟨(process_file net cur fs fi).downloaded, 0, fs', []⟩ := by
  by_cases hp : fi.path = []
  · rw [process_file_empty hp, process_file_empty hp]
  · by_cases hm : (cur ++ [savedName fi]) ∈ fs
    · rw [process_file_skip hp hm] at hsub ⊢
      rw [process_file_skip hp (hsub hm)]
    · cases hnet : net fi.path with
      | true =>
        rw [process_file_dl hp hm hnet] at hsub ⊢
        rw [process_file_skip hp (hsub (List.mem_cons_self _ _))]
      | false =>
        rw [process_file_fail hp hm hnet] at h0
        simp at h0

theorem process_files_rerun (net : List Char → Bool) (cur : FPath) :
    ∀ (l : List FileInfo) (fs fs' : FS),
      (process_files net cur l fs).failed = 0 →
      (process_files net cur l fs).fs ⊆ fs' →
      process_files net cur l fs' = ⟨(process_files net cur l fs).downloaded, 0, fs', []⟩
  | [], _, _, _, _ => rfl
  | fi :: rest, fs, fs', h, hsub => by
    have h' : (process_file net cur fs fi).failed
        + (process_files net cur rest (process_file net cur fs fi).fs).failed = 0 := h
    have hsub' : (process_files net cur rest (process_file net cur fs fi).fs).fs ⊆ fs' := hsub
    have h1 : (process_file net cur fs fi).failed = 0 := by omega
    have h2 : (process_files net cur rest (process_file net cur fs fi).fs).failed = 0 := by omega
    have hr1 : (process_file net cur fs fi).fs ⊆ fs' :=
      (process_files_fs_sub net cur rest (process_file net cur fs fi).fs).trans hsub'
    have e1 := process_file_rerun net cur fi fs fs' h1 hr1
    have e2 := process_files_rerun net cur rest (process_file net cur fs fi).fs fs' h2 hsub'
    rw [process_files_cons, process_files_cons, e1]
    simp only [e2]
    simp

mutual
theorem process_folder_rerun (net : List Char → Bool) :
    ∀ (t : FolderNode) (cur : FPath) (fs fs' : FS),
      (process_folder net t cur fs).failed = 0 →
      (process_folder net t cur fs).fs ⊆ fs' →
      process_folder net t cur fs' = ⟨(process_folder net t cur fs).downloaded, 0, fs', []⟩
  | FolderNode.failed, _, _, _, _, _ => rfl
  | FolderNode.ok nm files subs, cur, fs, fs', h, hsub => by
    have h' : (process_files net cur (files.getD []) fs).failed
        + (process_subs_opt net subs cur
            (process_files net cur (files.getD []) fs).fs).failed = 0 := h
    have hsub' : (process_subs_opt net subs cur
        (process_files net cur (files.getD []) fs).fs).fs ⊆ fs' := hsub
    have h1 : (process_files net cur (files.getD []) fs).failed = 0 := by omega
    have h2 : (process_subs_opt net subs cur
        (process_files net cur (files.getD []) fs).fs).failed = 0 := by omega
    have hr1 : (process_files net cur (files.getD []) fs).fs ⊆ fs' :=
      (process_subs_opt_fs_sub net subs cur
        (process_files net cur (files.getD []) fs).fs).trans hsub'
    have e1 := process_files_rerun net cur (files.getD []) fs fs' h1 hr1
    have e2 := process_subs_opt_rerun net subs cur
      (process_files net cur (files.getD []) fs).fs fs' h2 hsub'
    rw [process_folder_ok, process_folder_ok, e1]
    simp only [e2]
    simp
theorem process_subs_opt_rerun (net : List Char → Bool) :
    ∀ (o : Option (List SubEntry)) (cur : FPath) (fs fs' : FS),
      (process_subs_opt net o cur fs).failed = 0 →
      (process_subs_opt net o cur fs).fs ⊆ fs' →
      process_subs_opt net o cur fs' = ⟨(process_subs_opt net o cur fs).downloaded, 0, fs', []⟩
  | none, _, _, _, _, _ => rfl
  | some l, cur, fs, fs', h, hsub => process_subs_rerun net l cur fs fs' h hsub
theorem process_subs_rerun (net : List Char → Bool) :
    ∀ (l : List SubEntry) (cur : FPath) (fs fs' : FS),
      (process_subs net l cur fs).failed = 0 →
      (process_subs net l cur fs).fs ⊆ fs' →
      process_subs net l cur fs' = ⟨(process_subs net l cur fs).downloaded, 0, fs', []⟩
  | [], _, _, _, _, _ => rfl
  | (oid, oname, sub) :: rest, cur, fs, fs', h, hsub => by
    cases oid with
    | none =>
      rw [process_subs_cons_none] at h hsub ⊢
      exact process_subs_rerun net rest cur fs fs' h hsub
    | some i =>
      have h' : (process_folder net sub
            (cur ++ [sanitize_filename (oname.getD (folderDefaultName i))]) fs).failed
          + (process_subs net rest cur
              (process_folder net sub
                (cur ++ [sanitize_filename (oname.getD (folderDefaultName i))]) fs).fs).failed
          = 0 := h
      have hsub' : (process_subs net rest cur
          (process_folder net sub
            (cur ++ [sanitize_filename (oname.getD (folderDefaultName i))]) fs).fs).fs ⊆ fs' :=
        hsub
      have h1 : (process_folder net sub
          (cur ++ [sanitize_filename (oname.getD (folderDefaultName i))]) fs).failed = 0 := by
        omega
      have h2 : (process_subs net rest cur
          (process_folder net sub
            (cur ++ [sanitize_filename (oname.getD (folderDefaultName i))]) fs).fs).failed
          = 0 := by omega
      have hr1 : (process_folder net sub
          (cur ++ [sanitize_filename (oname.getD (folderDefaultName i))]) fs).fs ⊆ fs' :=
        (process_subs_fs_sub net rest cur
          (process_folder net sub
            (cur ++ [sanitize_filename (oname.getD (folderDefaultName i))]) fs).fs).trans hsub'
      have e1 := process_folder_rerun net sub
        (cur ++ [sanitize_filename (oname.getD (folderDefaultName i))]) fs fs' h1 hr1
      have e2 := process_subs_rerun net rest cur
        (process_folder net sub
          (cur ++ [sanitize_filename (oname.getD (folderDefaultName i))]) fs).fs fs' h2 hsub'
      rw [process_subs_cons_some, process_subs_cons_some, e1]
      simp only [e2]
      simp
end

/-! ### Claim C2 (skip-if-exists and idempotent re-run) -/

/-- Claim C2 counterexample: the claim that a second full walk over identical
remote data, with the first run's files present, performs zero new downloads
and reports zero failures is false on the code.  With one file whose download
always fails, the first run saves nothing (so all of its files are present),
and the second run again attempts the download and again reports one
failure. -/
theorem C2_counterexample :
    (process_folder (fun _ => false) (FolderNode.ok none (some [⟨['p'], []⟩]) none) [] []).fs
      = [] ∧
    (process_folder (fun _ => false) (FolderNode.ok none (some [⟨['p'], []⟩]) none) []
        (process_folder (fun _ => false) (FolderNode.ok none (some [⟨['p'], []⟩]) none)
          [] []).fs).failed = 1 ∧
    (process_folder (fun _ => false) (FolderNode.ok none (some [⟨['p'], []⟩]) none) []
        (process_folder (fun _ => false) (FolderNode.ok none (some [⟨['p'], []⟩]) none)
          [] []).fs).tried = [['p']] := by
  exact ⟨by decide, by decide, by decide⟩

/-- Claim C2 (amended): a file entry whose computed local path already exists
is counted as downloaded with no download attempt and no filesystem change;
consequently, when a full walk reports zero failures, running it again
against identical remote data over the resulting filesystem performs zero
download attempts, reports zero failures and the same downloaded count, and
leaves the filesystem unchanged (when the first run had failures, the failed
files are re-attempted, so the unconditional claim fails). -/
theorem C2_skip_and_rerun (net : List Char → Bool) (t : FolderNode) (cur : FPath) (fs : FS)
    (h : (process_folder net t cur fs).failed = 0) :
    (∀ (fs2 : FS) (fi : FileInfo), fi.path ≠ [] → (cur ++ [savedName fi]) ∈ fs2 →
        process_file net cur fs2 fi = ⟨1, 0, fs2, []⟩) ∧
    process_folder net t cur (process_folder net t cur fs).fs =
      ⟨(process_folder net t cur fs).downloaded, 0, (process_folder net t cur fs).fs, []⟩ :=
  ⟨fun _ _ hp hm => process_file_skip hp hm,
   process_folder_rerun net t cur fs (process_folder net t cur fs).fs h (fun _ ha => ha)⟩

/-- Claim C2 witness: the amended claim applied to a one-file tree whose
download succeeds; the first run reports zero failures and the second run
skips the file. -/
theorem C2_witness :
    (process_folder (fun _ => true) (FolderNode.ok none (some [⟨['p'], []⟩]) none)
      [] []).failed = 0 ∧
    process_file (fun _ => true) [] [[savedName ⟨['p'], []⟩]] ⟨['p'], []⟩
      = ⟨1, 0, [[savedName ⟨['p'], []⟩]], []⟩ ∧
    process_folder (fun _ => true) (FolderNode.ok none (some [⟨['p'], []⟩]) none) []
        (process_folder (fun _ => true) (FolderNode.ok none (some [⟨['p'], []⟩]) none)
          [] []).fs =
      ⟨(process_folder (fun _ => true) (FolderNode.ok none (some [⟨['p'], []⟩]) none)
          [] []).downloaded, 0,
       (process_folder (fun _ => true) (FolderNode.ok none (some [⟨['p'], []⟩]) none)
          [] []).fs, []⟩ := by
  have h := C2_skip_and_rerun (fun _ => true) (FolderNode.ok none (some [⟨['p'], []⟩]) none)
    [] [] (by decide)
  exact ⟨by decide, h.1 [[savedName ⟨['p'], []⟩]] ⟨['p'], []⟩ (by decide) (by decide), h.2⟩
